import Mathlib

/-!
Verification of the chunked video upload core of the fctube repository.

The development shallowly embeds `Django/core/services.py` (the
`VideoService` and `Storage` classes) together with the chunk-size
validation of `Django/core/form.py` and the admin glue of
`Django/core/admin.py` that runs that validation before calling the
service.

Modelling conventions:
- Filesystem paths (`os.path` strings) are component lists: the python
  string built by `f'/tmp/videos/{video_id}'` becomes
  `["tmp", "videos", toString video_id]`, and `os.path.join(d, name)`
  becomes `d ++ [name]`.  The filesystem is a flat association list of
  file paths to byte lists, plus a list of existing directories.
- Bytes are `List Nat`; the python `chunk.size` is the list length.
- The database table of `VideoMedia` rows for the one video under
  consideration is a `List VideoMedia`; the `unique` foreign key of
  `models.py` is enforced by `media_table_create`, which fails with
  `IntegrityError` when a row already exists.  Django's lazy
  `video.video_media` access is `List.head?`.
- Python exceptions become `Except` errors.  The service operations run
  their read-modify-write sequence inside `transaction.atomic()`, and in
  every failing path the exception is raised before any chunk-file write,
  so a `.error` result carries no state: the caller's state is the
  persisted state, unchanged.
- Concurrency in `__prepare_video_media` is modelled by an oracle
  `concurrent : Option VideoMedia`: `some w` means a concurrent creator
  committed the row `w` between this call's existence check and its
  insert, making the insert fail with `IntegrityError`.
- Per-file failures of `shutil.move` inside `Storage.move_chunks` are
  environmental; they are modelled by an oracle `String → Bool` naming
  the directory entries whose move raises.  The `print` logging becomes
  an explicit list of `LogEntry` values.
-/

namespace FCTube

/-- Errors of the service layer.  Each constructor embeds one python
exception class; the `String` fields carry the exact message used in
`services.py`, which distinguishes the two uses of
`VideoMediaInvalidStatusException`. -/
inductive ServiceErr where
  | VideoDoesNotExist
  | VideoMediaInvalidStatus (msg : String)
  | VideoMediaNotExists (msg : String)
  | VideoChunkUpload (msg : String)
  | RelatedObjectDoesNotExist
  | IntegrityError
  | FileNotFoundError
  | NotADirectoryError
deriving DecidableEq

instance {ε α : Type _} [DecidableEq ε] [DecidableEq α] : DecidableEq (Except ε α) :=
  fun a b =>
  match a, b with
  | .ok x, .ok y => if h : x = y then .isTrue (by simp [h]) else .isFalse (by simp [h])
  | .error x, .error y => if h : x = y then .isTrue (by simp [h]) else .isFalse (by simp [h])
  | .ok _, .error _ => .isFalse (fun h => Except.noConfusion h)
  | .error _, .ok _ => .isFalse (fun h => Except.noConfusion h)

/-- Modelled from the spec: `core/models.py` is not under `src/`, only its
users are.  The status enum of `VideoMedia` follows the spec's list of
legal values, spelled as `services.py` spells the members it uses
(`UPLOADED_STARTED` is the spec's `UPLOAD_IN_PROGRESS`). -/
inductive Status where
  | UPLOAD_STARTED
  | UPLOADED_STARTED
  | PROCESS_STARTED
  | PROCESS_FINISHED
deriving DecidableEq

/-- A filesystem path as its list of components. -/
abbrev FsPath := List String

/-- The filesystem: existing regular files with their contents, and
existing directories. -/
structure FileSys where
  files : List (FsPath × List Nat)
  dirs : List FsPath
deriving DecidableEq

/-- Embeds `os.path.join(d, name)`. -/
def pathJoin (d : FsPath) (name : String) : FsPath := d ++ [name]

/-- Embeds `os.path.exists`: true for files and for directories. -/
def pathExists (fs : FileSys) (p : FsPath) : Bool :=
  fs.files.any (fun e => decide (e.1 = p)) || fs.dirs.any (fun d => decide (d = p))

/-- Embeds `os.path.isfile`. -/
def isFile (fs : FileSys) (p : FsPath) : Bool :=
  fs.files.any (fun e => decide (e.1 = p))

/-- Contents of the regular file at `p`, if any. -/
def getFile (fs : FileSys) (p : FsPath) : Option (List Nat) :=
  (fs.files.find? (fun e => decide (e.1 = p))).map (fun e => e.2)

/-- Removes every entry for path `p` from a file listing. -/
def removeFile (l : List (FsPath × List Nat)) (p : FsPath) : List (FsPath × List Nat) :=
  l.filter (fun e => decide (¬ e.1 = p))

/-- Embeds `os.makedirs(p)` (only the existence of `p` itself is ever
queried afterwards, so implicit parents are not tracked). -/
def makedirs (fs : FileSys) (p : FsPath) : FileSys :=
  { fs with dirs := p :: fs.dirs }

/-- The `if not path.exists(p): makedirs(p)` pattern used by both
`Storage` methods. -/
def makedirsIfAbsent (fs : FileSys) (p : FsPath) : FileSys :=
  if pathExists fs p then fs else makedirs fs p

/-- Names of the direct children of directory `d`, whether files or
directories; embeds `os.listdir`'s result list (deduplicated, as a real
directory listing is). -/
def childNames (fs : FileSys) (d : FsPath) : List String :=
  ((fs.files.map (fun e => e.1) ++ fs.dirs).filterMap
    (fun p => if p.dropLast = d then p.getLast? else none)).dedup

/-- Embeds `os.listdir(p)`: raises `FileNotFoundError` when `p` is not an
existing directory (`NotADirectoryError` when it is a regular file). -/
def listdir (fs : FileSys) (p : FsPath) : Except ServiceErr (List String) :=
  if fs.dirs.any (fun d => decide (d = p)) then .ok (childNames fs p)
  else if isFile fs p then .error .NotADirectoryError
  else .error .FileNotFoundError

/-- Embeds `shutil.move(src, dst)` for a regular file: the file's bytes
disappear from `src` and overwrite whatever was at `dst`. -/
def moveFile (fs : FileSys) (src dst : FsPath) : FileSys :=
  match getFile fs src with
  | none => fs
  | some c => { fs with files := (dst, c) :: removeFile (removeFile fs.files src) dst }

/-- The file name `f'{chunk_index}.chunk'`. -/
def chunkFileName (chunk_index : Int) : String := toString chunk_index ++ ".chunk"

namespace Storage

/-- Embeds `Storage.storage_chunk`: create the directory if absent, then
write the chunk bytes to `{chunk_index}.chunk` inside it, overwriting any
prior content at that index. -/
def storage_chunk (fs : FileSys) (directory : FsPath) (chunk_index : Int)
    (chunk : List Nat) : FileSys :=
  let fs1 := makedirsIfAbsent fs directory
  let chunk_path := pathJoin directory (chunkFileName chunk_index)
  { fs1 with files := (chunk_path, chunk) :: removeFile fs1.files chunk_path }

/-- One `print` line of `Storage.move_chunks`: a successful move, a
caught-and-logged move error, or a skipped non-regular entry. -/
inductive LogEntry where
  | moved (name : String)
  | moveError (name : String)
  | notAFile (name : String)
deriving DecidableEq

/-- The `for filename in listdir(source_path)` loop body of
`Storage.move_chunks`, iterated over the listed entry names: a regular
file is moved unless the failure oracle makes `shutil.move` raise, in
which case the error is logged and the loop continues; a non-regular
entry is logged and skipped. -/
def moveLoop (source_path dest_path : FsPath) (oracle : String → Bool) :
    List String → FileSys → FileSys × List LogEntry
  | [], fs => (fs, [])
  | n :: ns, fs =>
    if isFile fs (pathJoin source_path n) then
      if oracle n then
        let r := moveLoop source_path dest_path oracle ns fs
        (r.1, .moveError n :: r.2)
      else
        let r := moveLoop source_path dest_path oracle ns
          (moveFile fs (pathJoin source_path n) (pathJoin dest_path n))
        (r.1, .moved n :: r.2)
    else
      let r := moveLoop source_path dest_path oracle ns fs
      (r.1, .notAFile n :: r.2)

/-- Embeds `Storage.move_chunks`: create the destination if absent, list
the source directory (raising if it does not exist), then best-effort
move every listed regular file. -/
def move_chunks (fs : FileSys) (source_path dest_path : FsPath)
    (oracle : String → Bool) : Except ServiceErr (FileSys × List LogEntry) :=
  let fs1 := makedirsIfAbsent fs dest_path
  match listdir fs1 source_path with
  | .error e => .error e
  | .ok names => .ok (moveLoop source_path dest_path oracle names fs1)

end Storage

/-- The `Video` row fields the core touches (title, counters and the
author are never read or written by the service). -/
structure Video where
  id : Nat
  is_published : Bool
deriving DecidableEq

/-- One `VideoMedia` row for the video under consideration (the unique
`video` foreign key is implicit: the table below holds this video's
rows). -/
structure VideoMedia where
  status : Status
  video_path : FsPath
deriving DecidableEq

/-- The state a service call sees: the video row (none when the video id
does not resolve), this video's `VideoMedia` table rows, and the
filesystem. -/
structure AppState where
  video : Option Video
  media : List VideoMedia
  fs : FileSys
deriving DecidableEq

namespace VideoService

/-- Embeds `get_chunk_directory`: `f'/tmp/videos/{video_id}'`. -/
def get_chunk_directory (video_id : Nat) : FsPath :=
  ["tmp", "videos", toString video_id]

/-- Embeds `find_video` / `Video.objects.get(id=video_id)`. -/
def find_video (st : AppState) : Except ServiceErr Video :=
  match st.video with
  | some v => .ok v
  | none => .error .VideoDoesNotExist

/-- Modelled from the spec: the `unique` constraint on `VideoMedia.video`
lives in `core/models.py`, which is not under `src/`.  Per the spec,
"at most one record per video" — an insert into a table that already
holds a row for this video violates the constraint and raises
`IntegrityError`. -/
def media_table_create (db : List VideoMedia) (vm : VideoMedia) :
    Except ServiceErr (List VideoMedia) :=
  if db.isEmpty then .ok (db ++ [vm]) else .error .IntegrityError

/-- Embeds Django's `video_media.save()`: the row for this video is
updated in place (the table holds this one video's rows). -/
def media_table_save (_db : List VideoMedia) (vm : VideoMedia) : List VideoMedia :=
  [vm]

/-- The row `VideoMedia.objects.create(video=video, status=UPLOADED_STARTED,
video_path=get_chunk_directory(video.id))` inserts. -/
def fresh_media (video_id : Nat) : VideoMedia :=
  { status := .UPLOADED_STARTED, video_path := get_chunk_directory video_id }

/-- Embeds `__prepare_video_media`: return the existing row if any; else
try to insert a fresh one; on `IntegrityError` (the `concurrent` creator
committed first) re-fetch and return the winner's row.  The function is
total: the race is never raised to the caller. -/
def prepare_video_media (video_id : Nat) (db : List VideoMedia)
    (concurrent : Option VideoMedia) : VideoMedia × List VideoMedia :=
  match db.head? with
  | some vm => (vm, db)
  | none =>
    let db1 := match concurrent with
      | none => db
      | some w => db ++ [w]
    match media_table_create db1 (fresh_media video_id) with
    | .ok db2 => (fresh_media video_id, db2)
    | .error _ => (db1.head?.getD (fresh_media video_id), db1)

/-- Embeds `process_upload`.  The status dispatch follows the source: a
`PROCESS_STARTED` record rejects the chunk; an `UPLOADED_STARTED` record
stores it under the record's current path; a `PROCESS_FINISHED` record
first resets the path to the default chunk directory and clears the
video's published flag; any remaining status is overwritten with
`UPLOADED_STARTED` before the chunk is stored. -/
def process_upload (video_id : Nat) (chunk_index : Int) (chunk : List Nat)
    (concurrent : Option VideoMedia) (st : AppState) : Except ServiceErr AppState :=
  match find_video st with
  | .error e => .error e
  | .ok video =>
    let directory := get_chunk_directory video_id
    let p := prepare_video_media video_id st.media concurrent
    let vm := p.1
    let db := p.2
    if vm.status = .PROCESS_STARTED then
      .error (.VideoMediaInvalidStatus "An upload is already in progress.")
    else if vm.status = .UPLOADED_STARTED then
      .ok { st with media := db,
                    fs := Storage.storage_chunk st.fs vm.video_path chunk_index chunk }
    else
      let vm1 := if vm.status = .PROCESS_FINISHED then
          { vm with video_path := directory } else vm
      let video1 := if vm.status = .PROCESS_FINISHED then
          { video with is_published := false } else video
      let vm2 := { vm1 with status := Status.UPLOADED_STARTED }
      .ok { video := some video1, media := media_table_save db vm2,
            fs := Storage.storage_chunk st.fs vm2.video_path chunk_index chunk }

/-- Embeds `__validate_chunks`: false when the directory itself is
absent, otherwise true iff `f'{i}.chunk'` exists for every
`i in range(total_chunks)` (empty for non-positive `total_chunks`, as in
python). -/
def validate_chunks (fs : FileSys) (video_path : FsPath) (total_chunks : Int) : Bool :=
  if pathExists fs video_path then
    (List.range total_chunks.toNat).all
      (fun i => pathExists fs (pathJoin video_path (chunkFileName (i : Int))))
  else false

/-- Embeds `finalize_upload`: no record raises `Upload not started.`; a
record not in `UPLOADED_STARTED` raises the invalid-status error; an
incomplete chunk set raises `Chunks are invalid.`; otherwise the status
becomes `PROCESS_STARTED` and is saved. -/
def finalize_upload (video_id : Nat) (total_chunks : Int) (st : AppState) :
    Except ServiceErr AppState :=
  match find_video st with
  | .error e => .error e
  | .ok _video =>
    match st.media.head? with
    | none => .error (.VideoMediaNotExists "Upload not started.")
    | some vm =>
      if vm.status = .UPLOADED_STARTED then
        if validate_chunks st.fs vm.video_path total_chunks then
          let vm1 := { vm with status := Status.PROCESS_STARTED }
          .ok { st with media := media_table_save st.media vm1 }
        else .error (.VideoChunkUpload "Chunks are invalid.")
      else .error (.VideoMediaInvalidStatus "Upload must be started to finish it.")

/-- The destination `f'/media/uploads/{video_id}'` of
`upload_chunks_to_external_storage`. -/
def external_directory (video_id : Nat) : FsPath :=
  ["media", "uploads", toString video_id]

/-- Embeds `upload_chunks_to_external_storage`: move this video's chunk
directory to `/media/uploads/{video_id}`. -/
def upload_chunks_to_external_storage (video_id : Nat) (oracle : String → Bool)
    (st : AppState) : Except ServiceErr AppState :=
  match find_video st with
  | .error e => .error e
  | .ok _video =>
    let source_path := get_chunk_directory video_id
    let dest_path := external_directory video_id
    match Storage.move_chunks st.fs source_path dest_path oracle with
    | .error e => .error e
    | .ok r => .ok { st with fs := r.1 }

/-- Embeds `register_processed_video_path`: a record not in
`PROCESS_STARTED` raises; otherwise the record's path is set to the
processed path and the status becomes `PROCESS_FINISHED`. -/
def register_processed_video_path (video_id : Nat) (video_path : FsPath)
    (st : AppState) : Except ServiceErr AppState :=
  match find_video st with
  | .error e => .error e
  | .ok _video =>
    match st.media.head? with
    | none => .error .RelatedObjectDoesNotExist
    | some vm =>
      if vm.status = .PROCESS_STARTED then
        let vm1 := { vm with video_path := video_path, status := Status.PROCESS_FINISHED }
        .ok { st with media := media_table_save st.media vm1 }
      else .error (.VideoMediaInvalidStatus "Processing must be started to finish it.")

/-- Modelled from the spec: the external collaborator that composes
`upload_chunks_to_external_storage` and `register_processed_video_path`
into the single `promoteToExternalStorage` operation is not under `src/`
(only the two service functions it calls are).  Per the spec the status
precondition is checked before any relocation; on success the chunks are
relocated by `upload_chunks_to_external_storage` and the record is
updated by `register_processed_video_path` with the final location
`/media/uploads/{video_id}`. -/
def promoteToExternalStorage (video_id : Nat) (oracle : String → Bool)
    (st : AppState) : Except ServiceErr AppState :=
  match find_video st with
  | .error e => .error e
  | .ok _video =>
    match st.media.head? with
    | none => .error .RelatedObjectDoesNotExist
    | some vm =>
      if vm.status = .PROCESS_STARTED then
        match upload_chunks_to_external_storage video_id oracle st with
        | .error e => .error e
        | .ok st1 =>
          register_processed_video_path video_id (external_directory video_id) st1
      else .error (.VideoMediaInvalidStatus "Processing must be started to finish it.")

end VideoService

/-- Embeds `MAX_VIDEO_CHUNK_SIZE = 1 * 1024 * 1024` of `core/form.py`. -/
def MAX_VIDEO_CHUNK_SIZE : Nat := 1 * 1024 * 1024

/-- The fields of `VideoChunkUploadForm` relevant to validation. -/
structure VideoChunkUploadFormData where
  chunk : List Nat
  chunkIndex : Int
deriving DecidableEq

/-- Embeds `VideoChunkUploadForm.clean_chunk`: the chunk field is valid
iff its size does not exceed `MAX_VIDEO_CHUNK_SIZE`. -/
def clean_chunk (d : VideoChunkUploadFormData) : Bool :=
  decide (d.chunk.length ≤ MAX_VIDEO_CHUNK_SIZE)

/-- Embeds `VideoChunkUploadForm.is_valid()`: `chunkIndex` has
`min_value=0` and `clean_chunk` must pass. -/
def videoChunkUploadForm_is_valid (d : VideoChunkUploadFormData) : Bool :=
  decide (0 ≤ d.chunkIndex) && clean_chunk d

/-- Embeds `VideoAdmin._do_upload_video_chunks` of `core/admin.py`: an
invalid form returns HTTP 400 before the service is called; otherwise the
service runs and its exceptions map to 404 (`Video.DoesNotExist`) or 500,
success to 204.  The returned state is the observable state after the
request: unchanged on every error. -/
def do_upload_video_chunks (id : Nat) (d : VideoChunkUploadFormData)
    (concurrent : Option VideoMedia) (st : AppState) : Nat × AppState :=
  if videoChunkUploadForm_is_valid d then
    match VideoService.process_upload id d.chunkIndex d.chunk concurrent st with
    | .ok st1 => (204, st1)
    | .error .VideoDoesNotExist => (404, st)
    | .error _ => (500, st)
  else (400, st)

end FCTube

namespace FCTube

/-- C8: `__validate_chunks` returns false, rather than raising, when the
directory itself is absent; when the directory exists it returns true iff
a chunk file exists for every index in `[0, totalCount)`.  Totality of
the Lean function mirrors the python early `return False`: no error is
possible. -/
theorem validate_chunks_correct (fs : FileSys) (dir : FsPath) (total : Int) :
    (pathExists fs dir = false → VideoService.validate_chunks fs dir total = false) ∧
    (pathExists fs dir = true →
      (VideoService.validate_chunks fs dir total = true ↔
        ∀ i : Nat, i < total.toNat →
          pathExists fs (pathJoin dir (chunkFileName (i : Int))) = true)) := by
  unfold VideoService.validate_chunks
  constructor
  · intro h
    simp [h]
  · intro h
    simp [h, List.all_eq_true, List.mem_range]

theorem validate_chunks_correct_witness :
    VideoService.validate_chunks ⟨[], []⟩ ["tmp", "videos", "7"] 3 = false :=
  (validate_chunks_correct ⟨[], []⟩ ["tmp", "videos", "7"] 3).1 (by decide)

/-- C10: when the record is in `UPLOADED_STARTED` and its chunk directory
exists, `finalize_upload` with a non-positive `total_chunks` succeeds and
moves the status to `PROCESS_STARTED`: `range(total_chunks)` is empty, so
the per-index check is vacuous and the service imposes no lower bound on
`total_chunks`. -/
theorem finalize_upload_nonpositive_total (video_id : Nat) (total : Int) (st : AppState)
    (v : Video) (vm : VideoMedia)
    (hv : st.video = some v) (hm : st.media.head? = some vm)
    (hs : vm.status = Status.UPLOADED_STARTED)
    (hd : pathExists st.fs vm.video_path = true)
    (ht : total ≤ 0) :
    VideoService.finalize_upload video_id total st =
      .ok ⟨st.video, [⟨Status.PROCESS_STARTED, vm.video_path⟩], st.fs⟩ := by
  have htn : total.toNat = 0 := Int.toNat_of_nonpos ht
  simp [VideoService.finalize_upload, VideoService.find_video, hv, hm, hs,
    VideoService.validate_chunks, htn, hd, VideoService.media_table_save]

theorem finalize_upload_nonpositive_total_witness :
    VideoService.finalize_upload 1 0
        ⟨some ⟨1, true⟩, [VideoService.fresh_media 1], ⟨[], [["tmp", "videos", "1"]]⟩⟩ =
      .ok ⟨some ⟨1, true⟩, [⟨Status.PROCESS_STARTED, ["tmp", "videos", "1"]⟩],
        ⟨[], [["tmp", "videos", "1"]]⟩⟩ :=
  finalize_upload_nonpositive_total 1 0
    ⟨some ⟨1, true⟩, [VideoService.fresh_media 1], ⟨[], [["tmp", "videos", "1"]]⟩⟩
    ⟨1, true⟩ (VideoService.fresh_media 1) rfl rfl rfl (by decide) (by decide)

/-- C1: `finalize_upload` fails with `Upload not started.` when the video
has no `VideoMedia` row; fails with the invalid-status error when the row
is not in `UPLOADED_STARTED`; fails with `Chunks are invalid.` when some
chunk index in `[0, total_chunks)` has no file under the record's path;
and otherwise (directory present, all chunk files present) sets the
status to `PROCESS_STARTED` and persists it.  Every failing branch raises
before the save, so the error result leaves the persisted record — in
particular its status — unchanged. -/
theorem finalize_upload_correct (video_id : Nat) (total : Int) (st : AppState) (v : Video)
    (hv : st.video = some v) :
    (st.media.head? = none →
      VideoService.finalize_upload video_id total st =
        .error (.VideoMediaNotExists "Upload not started.")) ∧
    (∀ vm, st.media.head? = some vm → vm.status ≠ Status.UPLOADED_STARTED →
      VideoService.finalize_upload video_id total st =
        .error (.VideoMediaInvalidStatus "Upload must be started to finish it.")) ∧
    (∀ vm, st.media.head? = some vm → vm.status = Status.UPLOADED_STARTED →
      (∃ i : Nat, i < total.toNat ∧
        pathExists st.fs (pathJoin vm.video_path (chunkFileName (i : Int))) = false) →
      VideoService.finalize_upload video_id total st =
        .error (.VideoChunkUpload "Chunks are invalid.")) ∧
    (∀ vm, st.media.head? = some vm → vm.status = Status.UPLOADED_STARTED →
      pathExists st.fs vm.video_path = true →
      (∀ i : Nat, i < total.toNat →
        pathExists st.fs (pathJoin vm.video_path (chunkFileName (i : Int))) = true) →
      VideoService.finalize_upload video_id total st =
        .ok ⟨st.video, [⟨Status.PROCESS_STARTED, vm.video_path⟩], st.fs⟩) := by
  refine ⟨?_, ?_, ?_, ?_⟩
  · intro hm
    simp [VideoService.finalize_upload, VideoService.find_video, hv, hm]
  · intro vm hm hs
    simp [VideoService.finalize_upload, VideoService.find_video, hv, hm, hs]
  · intro vm hm hs hmiss
    have hval : VideoService.validate_chunks st.fs vm.video_path total = false := by
      unfold VideoService.validate_chunks
      rcases hmiss with ⟨i, hi, hfalse⟩
      cases hpe : pathExists st.fs vm.video_path with
      | false => simp [hpe]
      | true =>
        simp only [hpe, if_true]
        rw [List.all_eq_false]
        exact ⟨i, List.mem_range.mpr hi, by simp [hfalse]⟩
    simp [VideoService.finalize_upload, VideoService.find_video, hv, hm, hs, hval]
  · intro vm hm hs hd hall
    have hval : VideoService.validate_chunks st.fs vm.video_path total = true := by
      unfold VideoService.validate_chunks
      simp [hd, List.all_eq_true, List.mem_range]
      intro i hi
      exact hall i (Int.lt_toNat.mpr hi)
    simp [VideoService.finalize_upload, VideoService.find_video, hv, hm, hs, hval,
      VideoService.media_table_save]

theorem finalize_upload_correct_witness :
    VideoService.finalize_upload 9 3 ⟨some ⟨9, false⟩, [], ⟨[], []⟩⟩ =
      .error (.VideoMediaNotExists "Upload not started.") :=
  (finalize_upload_correct 9 3 ⟨some ⟨9, false⟩, [], ⟨[], []⟩⟩ ⟨9, false⟩ rfl).1 rfl

/-- C2: submitting a chunk while the record is in `PROCESS_STARTED` fails
with `An upload is already in progress.` (the conflict arm of
`VideoMediaInvalidStatusException`).  The exception is raised inside
`transaction.atomic()` before any save or `storage_chunk` call, so the
record's status and path stay as they were and no chunk file is
written — the error result carries no state change. -/
theorem process_upload_conflict (video_id : Nat) (chunk_index : Int) (chunk : List Nat)
    (concurrent : Option VideoMedia) (st : AppState) (v : Video) (vm : VideoMedia)
    (hv : st.video = some v) (hm : st.media.head? = some vm)
    (hs : vm.status = Status.PROCESS_STARTED) :
    VideoService.process_upload video_id chunk_index chunk concurrent st =
      .error (.VideoMediaInvalidStatus "An upload is already in progress.") := by
  simp [VideoService.process_upload, VideoService.find_video, hv,
    VideoService.prepare_video_media, hm, hs]

theorem process_upload_conflict_witness :
    VideoService.process_upload 4 0 [1, 2] none
        ⟨some ⟨4, true⟩, [⟨Status.PROCESS_STARTED, ["tmp", "videos", "4"]⟩], ⟨[], []⟩⟩ =
      .error (.VideoMediaInvalidStatus "An upload is already in progress.") :=
  process_upload_conflict 4 0 [1, 2] none
    ⟨some ⟨4, true⟩, [⟨Status.PROCESS_STARTED, ["tmp", "videos", "4"]⟩], ⟨[], []⟩⟩
    ⟨4, true⟩ ⟨Status.PROCESS_STARTED, ["tmp", "videos", "4"]⟩ rfl rfl rfl

/-- C3: submitting a chunk while the record is in `PROCESS_FINISHED`
re-opens the upload: the record's path is reset to the default chunk
directory for the video, the video's published flag is cleared, the
status becomes `UPLOADED_STARTED`, and the chunk is stored under the
reset path. -/
theorem process_upload_reupload (video_id : Nat) (chunk_index : Int) (chunk : List Nat)
    (concurrent : Option VideoMedia) (st : AppState) (v : Video) (vm : VideoMedia)
    (hv : st.video = some v) (hm : st.media.head? = some vm)
    (hs : vm.status = Status.PROCESS_FINISHED) :
    VideoService.process_upload video_id chunk_index chunk concurrent st =
      .ok ⟨some ⟨v.id, false⟩,
        [⟨Status.UPLOADED_STARTED, VideoService.get_chunk_directory video_id⟩],
        Storage.storage_chunk st.fs (VideoService.get_chunk_directory video_id)
          chunk_index chunk⟩ := by
  simp [VideoService.process_upload, VideoService.find_video, hv,
    VideoService.prepare_video_media, hm, hs, VideoService.media_table_save]

theorem process_upload_reupload_witness :
    VideoService.process_upload 2 5 [9] none
        ⟨some ⟨2, true⟩, [⟨Status.PROCESS_FINISHED, ["media", "uploads", "2"]⟩], ⟨[], []⟩⟩ =
      .ok ⟨some ⟨2, false⟩, [⟨Status.UPLOADED_STARTED, ["tmp", "videos", "2"]⟩],
        Storage.storage_chunk ⟨[], []⟩ ["tmp", "videos", "2"] 5 [9]⟩ :=
  process_upload_reupload 2 5 [9] none
    ⟨some ⟨2, true⟩, [⟨Status.PROCESS_FINISHED, ["media", "uploads", "2"]⟩], ⟨[], []⟩⟩
    ⟨2, true⟩ ⟨Status.PROCESS_FINISHED, ["media", "uploads", "2"]⟩ rfl rfl rfl

end FCTube

namespace FCTube

/-- C6: `__prepare_video_media` on a video with no record creates exactly
one row, in status `UPLOADED_STARTED` with the default chunk directory as
path; when a concurrent creator wins the uniqueness-constraint race the
caught `IntegrityError` leads to a re-fetch that returns the winner's
row.  The function is total, so the race is never raised to the caller,
and a table with at most one row never ends up with two. -/
theorem prepare_video_media_race (video_id : Nat) (concurrent : Option VideoMedia) :
    ((VideoService.prepare_video_media video_id [] concurrent).2 =
      [(VideoService.prepare_video_media video_id [] concurrent).1]) ∧
    (concurrent = none →
      VideoService.prepare_video_media video_id [] concurrent =
        (VideoService.fresh_media video_id, [VideoService.fresh_media video_id]) ∧
      (VideoService.fresh_media video_id).status = Status.UPLOADED_STARTED ∧
      (VideoService.fresh_media video_id).video_path =
        VideoService.get_chunk_directory video_id) ∧
    (∀ w, concurrent = some w →
      VideoService.prepare_video_media video_id [] concurrent = (w, [w])) ∧
    (∀ db : List VideoMedia, db.length ≤ 1 →
      (VideoService.prepare_video_media video_id db concurrent).2.length ≤ 1) := by
  refine ⟨?_, ?_, ?_, ?_⟩
  · cases concurrent <;>
      simp [VideoService.prepare_video_media, VideoService.media_table_create]
  · intro h
    subst h
    exact ⟨rfl, rfl, rfl⟩
  · intro w h
    subst h
    simp [VideoService.prepare_video_media, VideoService.media_table_create]
  · intro db hdb
    match db with
    | [] =>
      cases concurrent <;>
        simp [VideoService.prepare_video_media, VideoService.media_table_create]
    | [vm] =>
      simp [VideoService.prepare_video_media]
    | a :: b :: t =>
      simp at hdb

theorem prepare_video_media_race_witness :
    VideoService.prepare_video_media 3 [] (some ⟨Status.UPLOADED_STARTED, ["tmp", "videos", "3"]⟩) =
      (⟨Status.UPLOADED_STARTED, ["tmp", "videos", "3"]⟩,
        [⟨Status.UPLOADED_STARTED, ["tmp", "videos", "3"]⟩]) :=
  (prepare_video_media_race 3
    (some ⟨Status.UPLOADED_STARTED, ["tmp", "videos", "3"]⟩)).2.2.1
    ⟨Status.UPLOADED_STARTED, ["tmp", "videos", "3"]⟩ rfl

/-- Helper: `Storage.move_chunks` succeeds whenever the source directory
exists, returning the result of the best-effort move loop over the
listed entries, after the destination has been created if absent. -/
theorem move_chunks_ok_of_source_exists (fs : FileSys) (src dest : FsPath)
    (oracle : String → Bool) (hs : src ∈ fs.dirs) :
    Storage.move_chunks fs src dest oracle =
      .ok (Storage.moveLoop src dest oracle
        (childNames (makedirsIfAbsent fs dest) src) (makedirsIfAbsent fs dest)) := by
  have h1 : src ∈ (makedirsIfAbsent fs dest).dirs := by
    unfold makedirsIfAbsent makedirs
    split
    · exact hs
    · exact List.mem_cons_of_mem _ hs
  have h2 : ((makedirsIfAbsent fs dest).dirs.any fun d => decide (d = src)) = true :=
    List.any_eq_true.mpr ⟨src, h1, by simp⟩
  unfold Storage.move_chunks listdir
  simp [h2]

/-- C4: `promoteToExternalStorage` (the spec-modelled composition of
`upload_chunks_to_external_storage` and `register_processed_video_path`)
fails with the invalid-status error and performs no relocation whenever
the record is not in `PROCESS_STARTED`; in `PROCESS_STARTED` (with the
video's chunk directory present) it relocates the chunk files with
`Storage.move_chunks` to `/media/uploads/{video_id}`, sets the record's
path to that final location and its status to `PROCESS_FINISHED`. -/
theorem promote_to_external_storage_correct (video_id : Nat) (oracle : String → Bool)
    (st : AppState) (v : Video) (vm : VideoMedia)
    (hv : st.video = some v) (hm : st.media.head? = some vm) :
    (vm.status ≠ Status.PROCESS_STARTED →
      VideoService.promoteToExternalStorage video_id oracle st =
        .error (.VideoMediaInvalidStatus "Processing must be started to finish it.")) ∧
    (vm.status = Status.PROCESS_STARTED →
      VideoService.get_chunk_directory video_id ∈ st.fs.dirs →
      ∃ r : FileSys × List Storage.LogEntry,
        Storage.move_chunks st.fs (VideoService.get_chunk_directory video_id)
          (VideoService.external_directory video_id) oracle = .ok r ∧
        VideoService.promoteToExternalStorage video_id oracle st =
          .ok ⟨st.video,
            [⟨Status.PROCESS_FINISHED, VideoService.external_directory video_id⟩],
            r.1⟩) := by
  constructor
  · intro hs
    simp [VideoService.promoteToExternalStorage, VideoService.find_video, hv, hm, hs]
  · intro hs hdir
    have hmv := move_chunks_ok_of_source_exists st.fs
      (VideoService.get_chunk_directory video_id)
      (VideoService.external_directory video_id) oracle hdir
    refine ⟨_, hmv, ?_⟩
    simp [VideoService.promoteToExternalStorage, VideoService.find_video, hv, hm, hs,
      VideoService.upload_chunks_to_external_storage, hmv,
      VideoService.register_processed_video_path, VideoService.media_table_save]

theorem promote_to_external_storage_correct_witness :
    VideoService.promoteToExternalStorage 6 (fun _ => false)
        ⟨some ⟨6, true⟩, [⟨Status.UPLOADED_STARTED, ["tmp", "videos", "6"]⟩], ⟨[], []⟩⟩ =
      .error (.VideoMediaInvalidStatus "Processing must be started to finish it.") :=
  (promote_to_external_storage_correct 6 (fun _ => false)
    ⟨some ⟨6, true⟩, [⟨Status.UPLOADED_STARTED, ["tmp", "videos", "6"]⟩], ⟨[], []⟩⟩
    ⟨6, true⟩ ⟨Status.UPLOADED_STARTED, ["tmp", "videos", "6"]⟩ rfl rfl).1 (by decide)

/-- C5: a chunk larger than `MAX_VIDEO_CHUNK_SIZE` (1 MiB) fails the
form's `clean_chunk` validation, so the admin view answers HTTP 400
before the service is ever invoked: the state — media record and
filesystem — is returned exactly as it was, no record is created or
mutated and no chunk file is written. -/
theorem chunk_too_large_rejected (id : Nat) (d : VideoChunkUploadFormData)
    (concurrent : Option VideoMedia) (st : AppState)
    (h : d.chunk.length > MAX_VIDEO_CHUNK_SIZE) :
    clean_chunk d = false ∧
    do_upload_video_chunks id d concurrent st = (400, st) := by
  have hc : clean_chunk d = false := decide_eq_false (by omega)
  refine ⟨hc, ?_⟩
  simp [do_upload_video_chunks, videoChunkUploadForm_is_valid, hc]

theorem chunk_too_large_rejected_witness :
    clean_chunk ⟨List.replicate (2 * 1024 * 1024) 0, 0⟩ = false ∧
    do_upload_video_chunks 5 ⟨List.replicate (2 * 1024 * 1024) 0, 0⟩ none
        ⟨some ⟨5, true⟩, [], ⟨[], []⟩⟩ =
      (400, ⟨some ⟨5, true⟩, [], ⟨[], []⟩⟩) :=
  chunk_too_large_rejected 5 ⟨List.replicate (2 * 1024 * 1024) 0, 0⟩ none
    ⟨some ⟨5, true⟩, [], ⟨[], []⟩⟩
    (by show (List.replicate (2 * 1024 * 1024) (0 : Nat)).length > MAX_VIDEO_CHUNK_SIZE
        rw [List.length_replicate]
        norm_num [MAX_VIDEO_CHUNK_SIZE])

end FCTube

namespace FCTube

/-- Helper: joined paths agree on their last component. -/
theorem pathJoin_name_inj {d e : FsPath} {a b : String}
    (h : pathJoin d a = pathJoin e b) : a = b := by
  have h2 := congrArg List.getLast? h
  simpa [pathJoin] using h2

/-- Helper: membership in a file listing after `removeFile`. -/
theorem mem_removeFile {l : List (FsPath × List Nat)} {p : FsPath}
    {e : FsPath × List Nat} :
    e ∈ removeFile l p ↔ e ∈ l ∧ ¬ e.1 = p := by
  simp [removeFile, List.mem_filter]

/-- Helper: `isFile` as an existential over the file listing. -/
theorem isFile_iff {fs : FileSys} {p : FsPath} :
    isFile fs p = true ↔ ∃ e ∈ fs.files, e.1 = p := by
  simp [isFile, List.any_eq_true]

/-- Helper: `moveFile` never touches the directory list. -/
theorem moveFile_dirs (fs : FileSys) (src dst : FsPath) :
    (moveFile fs src dst).dirs = fs.dirs := by
  unfold moveFile
  cases getFile fs src <;> rfl

/-- Helper: a path other than the move's source and destination is a file
after `moveFile` exactly when it was before. -/
theorem isFile_moveFile_other {fs : FileSys} {src dst p : FsPath}
    (h1 : ¬ p = src) (h2 : ¬ p = dst) :
    isFile (moveFile fs src dst) p = isFile fs p := by
  unfold moveFile
  cases hg : getFile fs src with
  | none => rfl
  | some c =>
    rw [Bool.eq_iff_iff, isFile_iff, isFile_iff]
    constructor
    · rintro ⟨e, he, hep⟩
      rcases List.mem_cons.mp he with he | he
      · rw [he] at hep
        exact absurd hep.symm h2
      · obtain ⟨he3, -⟩ := mem_removeFile.mp he
        obtain ⟨he4, -⟩ := mem_removeFile.mp he3
        exact ⟨e, he4, hep⟩
    · rintro ⟨e, he, hep⟩
      refine ⟨e, List.mem_cons.mpr (Or.inr ?_), hep⟩
      exact mem_removeFile.mpr ⟨mem_removeFile.mpr ⟨he, hep ▸ h1⟩, hep ▸ h2⟩

/-- Helper: after `moveFile`, the destination path is a regular file
whenever the source was one. -/
theorem isFile_moveFile_dst {fs : FileSys} {src dst : FsPath}
    (h : isFile fs src = true) :
    isFile (moveFile fs src dst) dst = true := by
  unfold moveFile
  cases hg : getFile fs src with
  | none =>
    exfalso
    obtain ⟨e, he, hep⟩ := isFile_iff.mp h
    unfold getFile at hg
    cases hf : fs.files.find? (fun e => decide (e.1 = src)) with
    | some x =>
      rw [hf] at hg
      exact Option.noConfusion hg
    | none =>
      rw [List.find?_eq_none] at hf
      have := hf e he
      simp [hep] at this
  | some c =>
    exact isFile_iff.mpr ⟨(dst, c), List.mem_cons_self _ _, rfl⟩

end FCTube

namespace FCTube

/-- Helper: the move loop never touches the directory list. -/
theorem moveLoop_dirs (source dest : FsPath) (oracle : String → Bool)
    (ns : List String) : ∀ fs : FileSys,
    (Storage.moveLoop source dest oracle ns fs).1.dirs = fs.dirs := by
  induction ns with
  | nil => intro fs; rfl
  | cons m ms ih =>
    intro fs
    cases hmf : isFile fs (pathJoin source m) with
    | false => simpa [Storage.moveLoop, hmf] using ih fs
    | true =>
      cases ho : oracle m with
      | true => simpa [Storage.moveLoop, hmf, ho] using ih fs
      | false =>
        have h2 := ih (moveFile fs (pathJoin source m) (pathJoin dest m))
        rw [moveFile_dirs] at h2
        simpa [Storage.moveLoop, hmf, ho] using h2

/-- Helper: a destination file whose name is not among the remaining
entries survives the rest of the move loop. -/
theorem moveLoop_preserves_dest_file (source dest : FsPath) (oracle : String → Bool)
    (ns : List String) (n : String) : ∀ fs : FileSys, n ∉ ns →
    isFile fs (pathJoin dest n) = true →
    isFile (Storage.moveLoop source dest oracle ns fs).1 (pathJoin dest n) = true := by
  induction ns with
  | nil => intro fs _ hf; exact hf
  | cons m ms ih =>
    intro fs hn hf
    have hmn : ¬ n = m := fun h => hn (h ▸ List.mem_cons_self m ms)
    have hn2 : n ∉ ms := fun h => hn (List.mem_cons_of_mem m h)
    cases hmf : isFile fs (pathJoin source m) with
    | false => simpa [Storage.moveLoop, hmf] using ih fs hn2 hf
    | true =>
      cases ho : oracle m with
      | true => simpa [Storage.moveLoop, hmf, ho] using ih fs hn2 hf
      | false =>
        have hpres : isFile (moveFile fs (pathJoin source m) (pathJoin dest m))
            (pathJoin dest n) = true := by
          rw [isFile_moveFile_other]
          · exact hf
          · intro h
            exact hmn (pathJoin_name_inj h)
          · intro h
            exact hmn (pathJoin_name_inj h)
        simpa [Storage.moveLoop, hmf, ho] using
          ih (moveFile fs (pathJoin source m) (pathJoin dest m)) hn2 hpres

/-- Helper: per-entry behaviour of the move loop over distinct entry
names: a regular file whose move does not fail ends at the destination
and is logged moved; a failing move is logged and, since this holds for
every entry under every failure oracle, does not stop later entries; a
non-regular entry is only logged. -/
theorem moveLoop_spec (source dest : FsPath) (oracle : String → Bool)
    (ns : List String) : ∀ fs : FileSys, ns.Nodup → ∀ n ∈ ns,
    (isFile fs (pathJoin source n) = true → oracle n = false →
      Storage.LogEntry.moved n ∈ (Storage.moveLoop source dest oracle ns fs).2 ∧
      isFile (Storage.moveLoop source dest oracle ns fs).1 (pathJoin dest n) = true) ∧
    (isFile fs (pathJoin source n) = true → oracle n = true →
      Storage.LogEntry.moveError n ∈ (Storage.moveLoop source dest oracle ns fs).2) ∧
    (isFile fs (pathJoin source n) = false →
      Storage.LogEntry.notAFile n ∈ (Storage.moveLoop source dest oracle ns fs).2) := by
  induction ns with
  | nil =>
    intro fs _ n hn
    exact absurd hn (List.not_mem_nil n)
  | cons m ms ih =>
    intro fs hnd n hn
    have hnd2 : ms.Nodup := (List.nodup_cons.mp hnd).2
    have hm_not : m ∉ ms := (List.nodup_cons.mp hnd).1
    rcases List.mem_cons.mp hn with rfl | hns
    · cases hmf : isFile fs (pathJoin source n) with
      | true =>
        cases ho : oracle n with
        | false =>
          have hstep : Storage.moveLoop source dest oracle (n :: ms) fs =
              ((Storage.moveLoop source dest oracle ms
                  (moveFile fs (pathJoin source n) (pathJoin dest n))).1,
                .moved n :: (Storage.moveLoop source dest oracle ms
                  (moveFile fs (pathJoin source n) (pathJoin dest n))).2) := by
            simp [Storage.moveLoop, hmf, ho]
          rw [hstep]
          refine ⟨fun _ _ => ⟨List.mem_cons_self _ _, ?_⟩,
            fun _ hot => absurd hot (by simp [ho]),
            fun hff => absurd hff (by simp [hmf])⟩
          exact moveLoop_preserves_dest_file source dest oracle ms n
            (moveFile fs (pathJoin source n) (pathJoin dest n)) hm_not
            (isFile_moveFile_dst hmf)
        | true =>
          have hstep : Storage.moveLoop source dest oracle (n :: ms) fs =
              ((Storage.moveLoop source dest oracle ms fs).1,
                .moveError n :: (Storage.moveLoop source dest oracle ms fs).2) := by
            simp [Storage.moveLoop, hmf, ho]
          rw [hstep]
          exact ⟨fun _ hof => absurd hof (by simp [ho]),
            fun _ _ => List.mem_cons_self _ _,
            fun hff => absurd hff (by simp [hmf])⟩
      | false =>
        have hstep : Storage.moveLoop source dest oracle (n :: ms) fs =
            ((Storage.moveLoop source dest oracle ms fs).1,
              .notAFile n :: (Storage.moveLoop source dest oracle ms fs).2) := by
          simp [Storage.moveLoop, hmf]
        rw [hstep]
        exact ⟨fun hf _ => absurd hf (by simp [hmf]),
          fun hf _ => absurd hf (by simp [hmf]),
          fun _ => List.mem_cons_self _ _⟩
    · have hnm : ¬ n = m := fun h => hm_not (h ▸ hns)
      cases hmf : isFile fs (pathJoin source m) with
      | true =>
        cases ho : oracle m with
        | false =>
          have hstep : Storage.moveLoop source dest oracle (m :: ms) fs =
              ((Storage.moveLoop source dest oracle ms
                  (moveFile fs (pathJoin source m) (pathJoin dest m))).1,
                .moved m :: (Storage.moveLoop source dest oracle ms
                  (moveFile fs (pathJoin source m) (pathJoin dest m))).2) := by
            simp [Storage.moveLoop, hmf, ho]
          rw [hstep]
          have heq : isFile (moveFile fs (pathJoin source m) (pathJoin dest m))
              (pathJoin source n) = isFile fs (pathJoin source n) := by
            apply isFile_moveFile_other
            · intro h
              exact hnm (pathJoin_name_inj h)
            · intro h
              exact hnm (pathJoin_name_inj h)
          obtain ⟨c1, c2, c3⟩ :=
            ih (moveFile fs (pathJoin source m) (pathJoin dest m)) hnd2 n hns
          refine ⟨fun hf hof => ?_, fun hf hot => ?_, fun hff => ?_⟩
          · obtain ⟨d1, d2⟩ := c1 (by rw [heq]; exact hf) hof
            exact ⟨List.mem_cons_of_mem _ d1, d2⟩
          · exact List.mem_cons_of_mem _ (c2 (by rw [heq]; exact hf) hot)
          · exact List.mem_cons_of_mem _ (c3 (by rw [heq]; exact hff))
        | true =>
          have hstep : Storage.moveLoop source dest oracle (m :: ms) fs =
              ((Storage.moveLoop source dest oracle ms fs).1,
                .moveError m :: (Storage.moveLoop source dest oracle ms fs).2) := by
            simp [Storage.moveLoop, hmf, ho]
          rw [hstep]
          obtain ⟨c1, c2, c3⟩ := ih fs hnd2 n hns
          exact ⟨fun hf hof => ⟨List.mem_cons_of_mem _ (c1 hf hof).1, (c1 hf hof).2⟩,
            fun hf hot => List.mem_cons_of_mem _ (c2 hf hot),
            fun hff => List.mem_cons_of_mem _ (c3 hff)⟩
      | false =>
        have hstep : Storage.moveLoop source dest oracle (m :: ms) fs =
            ((Storage.moveLoop source dest oracle ms fs).1,
              .notAFile m :: (Storage.moveLoop source dest oracle ms fs).2) := by
          simp [Storage.moveLoop, hmf]
        rw [hstep]
        obtain ⟨c1, c2, c3⟩ := ih fs hnd2 n hns
        exact ⟨fun hf hof => ⟨List.mem_cons_of_mem _ (c1 hf hof).1, (c1 hf hof).2⟩,
          fun hf hot => List.mem_cons_of_mem _ (c2 hf hot),
          fun hff => List.mem_cons_of_mem _ (c3 hff)⟩

end FCTube

namespace FCTube

/-- C9: `Storage.move_chunks` creates the destination directory when it
is absent, then attempts every entry listed in the source directory and
returns after attempting all of them: a regular file whose move does not
fail ends up in the destination and is logged; a failing move is logged
and — because the per-entry conclusion holds under every failure
oracle — does not abort the moves of the remaining files; a non-regular
entry is logged and skipped rather than moved (directories are never
touched: the result's directory list is the input's, plus the created
destination). -/
theorem move_chunks_best_effort (fs : FileSys) (source dest : FsPath)
    (oracle : String → Bool) (hs : source ∈ fs.dirs) :
    ∃ r : FileSys × List Storage.LogEntry,
      Storage.move_chunks fs source dest oracle = .ok r ∧
      (pathExists fs dest = false → dest ∈ r.1.dirs) ∧
      r.1.dirs = (makedirsIfAbsent fs dest).dirs ∧
      (∀ n ∈ childNames (makedirsIfAbsent fs dest) source,
        (isFile fs (pathJoin source n) = true → oracle n = false →
          Storage.LogEntry.moved n ∈ r.2 ∧ isFile r.1 (pathJoin dest n) = true) ∧
        (isFile fs (pathJoin source n) = true → oracle n = true →
          Storage.LogEntry.moveError n ∈ r.2) ∧
        (isFile fs (pathJoin source n) = false →
          Storage.LogEntry.notAFile n ∈ r.2)) := by
  have hfiles : (makedirsIfAbsent fs dest).files = fs.files := by
    unfold makedirsIfAbsent makedirs
    split <;> rfl
  refine ⟨_, move_chunks_ok_of_source_exists fs source dest oracle hs, ?_, ?_, ?_⟩
  · intro habs
    rw [moveLoop_dirs]
    unfold makedirsIfAbsent makedirs
    simp [habs]
  · exact moveLoop_dirs source dest oracle _ _
  · intro n hn
    have hisf : ∀ p, isFile (makedirsIfAbsent fs dest) p = isFile fs p := by
      intro p
      simp [isFile, hfiles]
    have h := moveLoop_spec source dest oracle
      (childNames (makedirsIfAbsent fs dest) source)
      (makedirsIfAbsent fs dest) (List.nodup_dedup _) n hn
    rw [hisf] at h
    exact h

theorem move_chunks_best_effort_witness :
    ∃ r : FileSys × List Storage.LogEntry,
      Storage.move_chunks ⟨[(["s", "a"], [1])], [["s"]]⟩ ["s"] ["t"] (fun _ => false) =
        .ok r ∧
      (pathExists ⟨[(["s", "a"], [1])], [["s"]]⟩ ["t"] = false → ["t"] ∈ r.1.dirs) ∧
      r.1.dirs = (makedirsIfAbsent ⟨[(["s", "a"], [1])], [["s"]]⟩ ["t"]).dirs ∧
      (∀ n ∈ childNames (makedirsIfAbsent ⟨[(["s", "a"], [1])], [["s"]]⟩ ["t"]) ["s"],
        (isFile ⟨[(["s", "a"], [1])], [["s"]]⟩ (pathJoin ["s"] n) = true →
          (fun _ => false) n = false →
          Storage.LogEntry.moved n ∈ r.2 ∧ isFile r.1 (pathJoin ["t"] n) = true) ∧
        (isFile ⟨[(["s", "a"], [1])], [["s"]]⟩ (pathJoin ["s"] n) = true →
          (fun _ => false) n = true →
          Storage.LogEntry.moveError n ∈ r.2) ∧
        (isFile ⟨[(["s", "a"], [1])], [["s"]]⟩ (pathJoin ["s"] n) = false →
          Storage.LogEntry.notAFile n ∈ r.2)) :=
  move_chunks_best_effort ⟨[(["s", "a"], [1])], [["s"]]⟩ ["s"] ["t"] (fun _ => false)
    (by decide)

end FCTube

namespace FCTube

/-- The status column of this video's record, if any. -/
def status_of (st : AppState) : Option Status :=
  st.media.head?.map (fun vm => vm.status)

/-- The edges of the spec's state machine over the record's status:
creation, chunk accumulation, finalization, promotion, and the
reset-on-reupload transition. -/
def legal_edge : Option Status → Option Status → Bool
  | none, some .UPLOADED_STARTED => true
  | some .UPLOADED_STARTED, some .UPLOADED_STARTED => true
  | some .UPLOADED_STARTED, some .PROCESS_STARTED => true
  | some .PROCESS_STARTED, some .PROCESS_FINISHED => true
  | some .PROCESS_FINISHED, some .UPLOADED_STARTED => true
  | _, _ => false

/-- States reachable from a freshly created video (which has no record
yet) through the three operations; a concurrent creator inside
`process_upload` writes exactly the row `__prepare_video_media` would
create. -/
inductive Reaches : AppState → Prop where
  | init (v : Video) (fs : FileSys) : Reaches ⟨some v, [], fs⟩
  | upload {st st' : AppState} (video_id : Nat) (chunk_index : Int) (chunk : List Nat)
      (concurrent : Option VideoMedia)
      (hc : concurrent = none ∨ concurrent = some (VideoService.fresh_media video_id))
      (h : Reaches st)
      (hok : VideoService.process_upload video_id chunk_index chunk concurrent st = .ok st') :
      Reaches st'
  | finalize {st st' : AppState} (video_id : Nat) (total_chunks : Int)
      (h : Reaches st)
      (hok : VideoService.finalize_upload video_id total_chunks st = .ok st') :
      Reaches st'
  | promote {st st' : AppState} (video_id : Nat) (oracle : String → Bool)
      (h : Reaches st)
      (hok : VideoService.promoteToExternalStorage video_id oracle st = .ok st') :
      Reaches st'

/-- Helper: a successful `process_upload` always leaves the record in
`UPLOADED_STARTED`, and can only succeed when the record was not in
`PROCESS_STARTED`. -/
theorem process_upload_ok_status {video_id : Nat} {chunk_index : Int} {chunk : List Nat}
    {concurrent : Option VideoMedia} {st st' : AppState}
    (hok : VideoService.process_upload video_id chunk_index chunk concurrent st = .ok st') :
    status_of st' = some Status.UPLOADED_STARTED ∧
    status_of st ≠ some Status.PROCESS_STARTED := by
  unfold VideoService.process_upload VideoService.find_video at hok
  cases hv : st.video with
  | none =>
    rw [hv] at hok
    exact Except.noConfusion hok
  | some v =>
    rw [hv] at hok
    cases hdb : st.media.head? with
    | some vm0 =>
      have hprep : VideoService.prepare_video_media video_id st.media concurrent =
          (vm0, st.media) := by
        simp [VideoService.prepare_video_media, hdb]
      rw [hprep] at hok
      cases hs : vm0.status with
      | PROCESS_STARTED =>
        simp [hs] at hok
      | UPLOADED_STARTED =>
        simp [hs] at hok
        refine ⟨?_, by simp [status_of, hdb, hs]⟩
        rw [← hok]
        simp [status_of, hdb, hs]
      | UPLOAD_STARTED =>
        simp [hs, VideoService.media_table_save] at hok
        refine ⟨?_, by simp [status_of, hdb, hs]⟩
        rw [← hok]
        simp [status_of]
      | PROCESS_FINISHED =>
        simp [hs, VideoService.media_table_save] at hok
        refine ⟨?_, by simp [status_of, hdb, hs]⟩
        rw [← hok]
        simp [status_of]
    | none =>
      have hnil : st.media = [] := List.head?_eq_none_iff.mp hdb
      have hpre : status_of st ≠ some Status.PROCESS_STARTED := by
        simp [status_of, hdb]
      cases hc : concurrent with
      | none =>
        have hprep : VideoService.prepare_video_media video_id st.media concurrent =
            (VideoService.fresh_media video_id, [VideoService.fresh_media video_id]) := by
          simp [hc, hnil, VideoService.prepare_video_media, VideoService.media_table_create]
        rw [hprep] at hok
        simp [VideoService.fresh_media] at hok
        refine ⟨?_, hpre⟩
        rw [← hok]
        simp [status_of, VideoService.fresh_media]
      | some w =>
        have hprep : VideoService.prepare_video_media video_id st.media concurrent =
            (w, [w]) := by
          simp [hc, hnil, VideoService.prepare_video_media, VideoService.media_table_create]
        rw [hprep] at hok
        cases hs : w.status with
        | PROCESS_STARTED =>
          simp [hs] at hok
        | UPLOADED_STARTED =>
          simp [hs] at hok
          refine ⟨?_, hpre⟩
          rw [← hok]
          simp [status_of, hs]
        | UPLOAD_STARTED =>
          simp [hs, VideoService.media_table_save] at hok
          refine ⟨?_, hpre⟩
          rw [← hok]
          simp [status_of]
        | PROCESS_FINISHED =>
          simp [hs, VideoService.media_table_save] at hok
          refine ⟨?_, hpre⟩
          rw [← hok]
          simp [status_of]

end FCTube

namespace FCTube

/-- Helper: a successful `finalize_upload` starts from `UPLOADED_STARTED`
and leaves the record in `PROCESS_STARTED`. -/
theorem finalize_upload_ok_status {video_id : Nat} {total_chunks : Int} {st st' : AppState}
    (hok : VideoService.finalize_upload video_id total_chunks st = .ok st') :
    status_of st = some Status.UPLOADED_STARTED ∧
    status_of st' = some Status.PROCESS_STARTED := by
  unfold VideoService.finalize_upload VideoService.find_video at hok
  cases hv : st.video with
  | none =>
    rw [hv] at hok
    exact Except.noConfusion hok
  | some v =>
    rw [hv] at hok
    cases hdb : st.media.head? with
    | none =>
      rw [hdb] at hok
      exact Except.noConfusion hok
    | some vm =>
      rw [hdb] at hok
      cases hs : vm.status with
      | UPLOADED_STARTED =>
        cases hval : VideoService.validate_chunks st.fs vm.video_path total_chunks with
        | false => simp [hs, hval] at hok
        | true =>
          simp [hs, hval, VideoService.media_table_save] at hok
          refine ⟨by simp [status_of, hdb, hs], ?_⟩
          rw [← hok]
          simp [status_of]
      | UPLOAD_STARTED => simp [hs] at hok
      | PROCESS_STARTED => simp [hs] at hok
      | PROCESS_FINISHED => simp [hs] at hok

/-- Helper: a successful `promoteToExternalStorage` starts from
`PROCESS_STARTED` and leaves the record in `PROCESS_FINISHED`. -/
theorem promote_ok_status {video_id : Nat} {oracle : String → Bool} {st st' : AppState}
    (hok : VideoService.promoteToExternalStorage video_id oracle st = .ok st') :
    status_of st = some Status.PROCESS_STARTED ∧
    status_of st' = some Status.PROCESS_FINISHED := by
  unfold VideoService.promoteToExternalStorage VideoService.find_video at hok
  cases hv : st.video with
  | none =>
    rw [hv] at hok
    exact Except.noConfusion hok
  | some v =>
    rw [hv] at hok
    cases hdb : st.media.head? with
    | none =>
      rw [hdb] at hok
      exact Except.noConfusion hok
    | some vm =>
      rw [hdb] at hok
      cases hs : vm.status with
      | PROCESS_STARTED =>
        simp only [hs, if_true, reduceIte] at hok
        unfold VideoService.upload_chunks_to_external_storage VideoService.find_video at hok
        rw [hv] at hok
        cases hmv : Storage.move_chunks st.fs (VideoService.get_chunk_directory video_id)
            (VideoService.external_directory video_id) oracle with
        | error e =>
          simp only [hmv] at hok
          exact Except.noConfusion hok
        | ok r =>
          simp only [hmv] at hok
          simp [VideoService.register_processed_video_path, VideoService.find_video,
            hv, hdb, hs, VideoService.media_table_save] at hok
          refine ⟨by simp [status_of, hdb, hs], ?_⟩
          rw [← hok]
          simp [status_of]
      | UPLOAD_STARTED => simp [hs] at hok
      | UPLOADED_STARTED => simp [hs] at hok
      | PROCESS_FINISHED => simp [hs] at hok

/-- Helper: no reachable state carries the never-assigned
`UPLOAD_STARTED` status. -/
theorem reaches_not_upload_started {st : AppState} (h : Reaches st) :
    status_of st ≠ some Status.UPLOAD_STARTED := by
  induction h with
  | init v fs => simp [status_of]
  | upload _ _ _ _ _ _ hok _ =>
    rw [(process_upload_ok_status hok).1]
    simp
  | finalize _ _ _ hok _ =>
    rw [(finalize_upload_ok_status hok).2]
    simp
  | promote _ _ _ hok _ =>
    rw [(promote_ok_status hok).2]
    simp

end FCTube

namespace FCTube

/-- C7: from every reachable state, each of the three operations moves
the record's status only along the edges of the state machine:
creation to `UPLOADED_STARTED`, `UPLOADED_STARTED` to itself (chunk
accumulation), `UPLOADED_STARTED` to `PROCESS_STARTED` (finalize),
`PROCESS_STARTED` to `PROCESS_FINISHED` (promotion), and the
reset-on-reupload edge `PROCESS_FINISHED` to `UPLOADED_STARTED`; the
status advances strictly forward except for that reset edge. -/
theorem lifecycle_edges {st : AppState} (hr : Reaches st) :
    (∀ (st' : AppState) (video_id : Nat) (chunk_index : Int) (chunk : List Nat)
        (concurrent : Option VideoMedia),
      VideoService.process_upload video_id chunk_index chunk concurrent st = .ok st' →
      legal_edge (status_of st) (status_of st') = true) ∧
    (∀ (st' : AppState) (video_id : Nat) (total_chunks : Int),
      VideoService.finalize_upload video_id total_chunks st = .ok st' →
      legal_edge (status_of st) (status_of st') = true) ∧
    (∀ (st' : AppState) (video_id : Nat) (oracle : String → Bool),
      VideoService.promoteToExternalStorage video_id oracle st = .ok st' →
      legal_edge (status_of st) (status_of st') = true) := by
  refine ⟨?_, ?_, ?_⟩
  · intro st' video_id chunk_index chunk concurrent hok
    obtain ⟨h1, h2⟩ := process_upload_ok_status hok
    have h3 := reaches_not_upload_started hr
    rw [h1]
    cases hsts : status_of st with
    | none => rfl
    | some s =>
      cases s with
      | UPLOAD_STARTED => exact absurd hsts h3
      | UPLOADED_STARTED => rfl
      | PROCESS_STARTED => exact absurd hsts h2
      | PROCESS_FINISHED => rfl
  · intro st' video_id total_chunks hok
    obtain ⟨h1, h2⟩ := finalize_upload_ok_status hok
    rw [h1, h2]
    rfl
  · intro st' video_id oracle hok
    obtain ⟨h1, h2⟩ := promote_ok_status hok
    rw [h1, h2]
    rfl

theorem lifecycle_edges_witness :
    legal_edge (status_of ⟨some ⟨1, true⟩, [], ⟨[], []⟩⟩)
      (status_of ⟨some ⟨1, true⟩, [VideoService.fresh_media 1],
        Storage.storage_chunk ⟨[], []⟩ (VideoService.get_chunk_directory 1) 0 []⟩) = true :=
  (lifecycle_edges (Reaches.init ⟨1, true⟩ ⟨[], []⟩)).1
    ⟨some ⟨1, true⟩, [VideoService.fresh_media 1],
      Storage.storage_chunk ⟨[], []⟩ (VideoService.get_chunk_directory 1) 0 []⟩
    1 0 [] none (by decide)

end FCTube
